import Mathlib

/-!
# Verification of the Manifold portfolio analyzer valuation engine

Shallow embedding of `src/manifold-api.js` (the valuation engine of the
repository) and proofs about it.

Modelling conventions:
* JavaScript numbers are modelled as real numbers (`ℝ`); `Math.pow` is
  modelled as `Real.rpow` (they agree on the positive bases produced by
  the hypotheses of every theorem below).
* A possibly-missing JSON field is an `Option`; the JavaScript `x || d`
  default-on-falsy idiom is `jsOrNum` / `jsOrStr` (`0`, `""`, `null` and
  `undefined` are falsy), and `x || 0` on numeric fields is `Option.getD 0`.
* The `for` loop with a fixed 50-iteration budget in
  `calculateAmountToBuyShares` becomes the fuel recursion `bisectGo`.
* `Date.now()` is passed in explicitly as the `currentTime` argument of
  `processPositions`.
-/

/-- The two sides of a binary market; the source uses the strings
`'YES'` and `'NO'`. -/
inductive Outcome where
  | YES
  | NO
deriving DecidableEq

/-- A pair of reserves (or of share counts), the `{YES, NO}` objects of the
source; missing fields are read as `0` by every access in the source
(`pool.YES || 0`, or a `> 0` comparison that `undefined` fails), so the
fields are total. -/
structure Pool where
  YES : ℝ
  NO : ℝ
deriving Inhabited

/-- JavaScript `v || d` for a possibly-missing number (`0` is falsy). -/
noncomputable def jsOrNum (v : Option ℝ) (d : ℝ) : ℝ :=
  match v with
  | none => d
  | some x => if x = 0 then d else x

/-- JavaScript `v || d` for a possibly-missing string (`""` is falsy). -/
def jsOrStr (v : Option String) (d : String) : String :=
  match v with
  | none => d
  | some s => if s = "" then d else s

/-- JavaScript truthiness of a possibly-missing string (`""` is falsy). -/
def jsTruthyStr (v : Option String) : Bool :=
  match v with
  | none => false
  | some s => s ≠ ""

/-- The supported AMM mechanisms, `['cpmm-1', 'cpmm-multi-1']` in the
source. -/
def supportedMechanisms : List String := ["cpmm-1", "cpmm-multi-1"]

/-- `calculateCpmmShares(pool, p, betAmount, outcome)` of the source:
closed-form number of shares bought by spending `betAmount` on `outcome`,
from the constant-weighted-product invariant `k = y^p * n^(1-p)`. -/
noncomputable def calculateCpmmShares (pool : Pool) (p betAmount : ℝ)
    (outcome : Outcome) : ℝ :=
  if betAmount = 0 then 0
  else
    let y := pool.YES
    let n := pool.NO
    let k := Real.rpow y p * Real.rpow n (1 - p)
    match outcome with
    | Outcome.YES =>
        y + betAmount - Real.rpow (k * Real.rpow (betAmount + n) (p - 1)) (1 / p)
    | Outcome.NO =>
        n + betAmount - Real.rpow (k * Real.rpow (betAmount + y) (-p)) (1 / (1 - p))

/-- The `(y + n) > 0 ? n / (y + n) : 0.5` expression of
`calculateAmountToBuyShares` in the source. -/
noncomputable def currentProbability (pool : Pool) : ℝ :=
  if 0 < pool.YES + pool.NO then pool.NO / (pool.YES + pool.NO) else 0.5

/-- The `for (let i = 0; i < 50; i++)` binary-search loop of
`calculateAmountToBuyShares`, as a fuel recursion.  The last argument is
the JavaScript `mid` variable (initially `0`), returned when the fuel is
exhausted. -/
noncomputable def bisectGo (pool : Pool) (p shares : ℝ) (outcome : Outcome) :
    Nat → ℝ → ℝ → ℝ → ℝ
  | 0, _, _, mid => mid
  | fuel + 1, minAmount, maxAmount, _ =>
    let mid := (minAmount + maxAmount) / 2
    let sharesReceived := calculateCpmmShares pool p mid outcome
    if |sharesReceived - shares| < 0.0001 then mid
    else if sharesReceived < shares then
      bisectGo pool p shares outcome fuel mid maxAmount mid
    else
      bisectGo pool p shares outcome fuel minAmount mid mid

/-- `calculateAmountToBuyShares(pool, p, shares, outcome)` of the source:
amount needed to buy `shares` shares, by 50-step binary search on the
amount over `[shares * prob, shares]` (for `outcome = YES`;
`[shares * (1 - prob), shares]` for `NO`). -/
noncomputable def calculateAmountToBuyShares (pool : Pool) (p shares : ℝ)
    (outcome : Outcome) : ℝ :=
  if shares ≤ 0 then 0
  else
    let prob := currentProbability pool
    let minAmount :=
      match outcome with
      | Outcome.YES => shares * prob
      | Outcome.NO => shares * (1 - prob)
    bisectGo pool p shares outcome 50 minAmount shares 0

/-- `outcome === 'YES' ? 'NO' : 'YES'` of the source. -/
def oppositeOutcome : Outcome → Outcome
  | Outcome.YES => Outcome.NO
  | Outcome.NO => Outcome.YES

/-- `calculateSaleValue(shares, outcome, pool, p, mechanism)` of the
source: value of liquidating `shares` of `outcome` by buying the opposite
side and redeeming pairs. -/
noncomputable def calculateSaleValue (shares : ℝ) (outcome : Outcome)
    (pool : Pool) (p : ℝ) (mechanism : String) : ℝ :=
  if mechanism ∉ supportedMechanisms then 0
  else if pool.YES ≤ 0 ∨ pool.NO ≤ 0 then 0
  else
    max 0 (shares - calculateAmountToBuyShares pool p shares (oppositeOutcome outcome))

/-- `calculateSimpleSaleValue(shares, probability, outcome)` of the
source: the no-slippage fair value. -/
noncomputable def calculateSimpleSaleValue (shares probability : ℝ)
    (outcome : Outcome) : ℝ :=
  match outcome with
  | Outcome.YES => shares * probability
  | Outcome.NO => shares * (1 - probability)

/-- `calculateReturnIfCorrect(saleValue, shares, closeTime, currentTime)`
of the source.  `closeTime` is optional; the JavaScript falsy test
`!closeTime` also rejects a close time of exactly `0`. -/
noncomputable def calculateReturnIfCorrect (saleValue shares : ℝ)
    (closeTime : Option ℝ) (currentTime : ℝ) : Option ℝ :=
  match closeTime with
  | none => none
  | some ct =>
    if ct = 0 then none
    else
      let daysUntilClose := (ct - currentTime) / (1000 * 60 * 60 * 24)
      if daysUntilClose ≤ 0 ∨ saleValue ≤ 0 then none
      else
        let profitIfCorrect := shares - saleValue
        let effectiveDays := max daysUntilClose 1
        some (profitIfCorrect / saleValue * (365 / effectiveDays))

/-- The value of the JavaScript `probability` variable after the
mechanism dispatch of `processPositions`: `null` (the initial sentinel,
kept on every path that assigns nothing, or read from an explicit JSON
null), `undef` (the `prob` field was absent, so the assignment stored
`undefined`), or a number.  The source's `probability === null` test
matches only the literal `null`: an `undefined` probability bypasses
both the pool-ratio fallback and the skip. -/
inductive JSProb where
  | undef
  | null
  | num (x : ℝ)

/-- Stand-in for the number-typed reads of an `undefined` probability.
When the `prob` field is absent, the source pushes a valuation whose
`probability` is `undefined` and whose derived `fairValue` is `NaN`;
`ℝ` has neither value, so the emitted record carries this placeholder
in those fields instead.  The theorems below rely only on the fact that
a record is emitted on that path (and on the record being built by the
same formulas), never on the placeholder's numeric value. -/
noncomputable def undefinedProb : ℝ := 0

/-- An answer of a `cpmm-multi-1` contract (the fields of the source's
`contract.answers` elements that `processPositions` reads). -/
structure Answer where
  id : String
  resolution : Option String
  prob : JSProb
  text : Option String
  poolYes : Option ℝ
  poolNo : Option ℝ

/-- A market contract (the fields of the source's `contract` objects that
`processPositions` reads). -/
structure Contract where
  id : String
  isResolved : Bool
  mechanism : Option String
  closeTime : Option ℝ
  question : Option String
  slug : Option String
  creatorUsername : Option String
  p : Option ℝ
  prob : JSProb
  pool : Option Pool
  answers : Option (List Answer)

/-- One element of a `metricsByContract` list: the holding record fields
read by `processPositions`. -/
structure ContractMetric where
  totalShares : Option Pool
  answerId : Option String

/-- The merged fetch result consumed by `processPositions`
(`rawData.contracts || []`, `rawData.metricsByContract || {}`; the object
is modelled as an association list in key-insertion order, which is the
`Object.entries` iteration order for string keys). -/
structure RawData where
  metricsByContract : Option (List (String × List ContractMetric))
  contracts : Option (List Contract)

/-- The record pushed onto `positions` by `processPositions`. -/
structure PositionValuation where
  contractId : String
  question : String
  answer : Option String
  url : String
  outcome : Outcome
  shares : ℝ
  saleValue : ℝ
  fairValue : ℝ
  slippage : ℝ
  probability : ℝ
  daysUntilClose : Option ℝ
  returnIfCorrect : Option ℝ

/-- The `contracts.forEach(c => contractsLookup[c.id] = c)` lookup table of
the source: object assignment, so a later contract with the same id
overwrites an earlier one. -/
def lookupContract (contracts : List Contract) (cid : String) : Option Contract :=
  contracts.foldl (fun acc c => if c.id = cid then some c else acc) none

/-- The `for (const ans of answers) { if (ans.id === answerId) ... break }`
loop of the source: only the first answer with a matching id is ever
inspected. -/
def findAnswer (answers : List Answer) (answerId : String) : Option Answer :=
  answers.find? (fun ans => ans.id = answerId)

/-- The probability / answer-text / pool resolution of `processPositions`
(source lines 221-246): the state of the `probability`, `answerText` and
`pool` variables after the mechanism dispatch and before the pool-ratio
fallback.  The first component is `JSProb.null` exactly on the paths that
leave the variable at its initial `null` (no or unfound or resolved
answer, unsupported mechanism) and is `contract.prob` / `ans.prob`
(which may be `undef` for an absent field) on the assigning paths. -/
noncomputable def resolveProbPool (contract : Contract) (mechanism : String)
    (answerId : Option String) : JSProb × Option String × Pool :=
  if mechanism = "cpmm-1" then
    (contract.prob, none, (contract.pool).getD ⟨0, 0⟩)
  else if mechanism = "cpmm-multi-1" ∧ jsTruthyStr answerId then
    match findAnswer ((contract.answers).getD []) (answerId.getD "") with
    | none => (JSProb.null, none, ⟨0, 0⟩)
    | some ans =>
      if ans.resolution.isSome then (JSProb.null, none, ⟨0, 0⟩)
      else (ans.prob, some (jsOrStr ans.text ""), ⟨(ans.poolYes).getD 0, (ans.poolNo).getD 0⟩)
  else (JSProb.null, none, ⟨0, 0⟩)

/-- The body of the inner `for (const metrics of metricsList)` loop of
`processPositions` (source lines 200-297): `none` is a `continue`
(holding skipped), `some v` is a `positions.push(v)`. -/
noncomputable def processMetric (contract : Contract) (contractId : String)
    (currentTime : ℝ) (metrics : ContractMetric) : Option PositionValuation :=
  let totalShares := (metrics.totalShares).getD ⟨0, 0⟩
  let yesShares := totalShares.YES
  let noShares := totalShares.NO
  if yesShares ≤ 0 ∧ noShares ≤ 0 then none
  else
    let outcome := if noShares < yesShares then Outcome.YES else Outcome.NO
    let shares := if noShares < yesShares then yesShares else noShares
    if shares < 0.01 then none
    else
      let closeTime := contract.closeTime
      let question := jsOrStr contract.question "Unknown"
      let slug := jsOrStr contract.slug ""
      let creatorUsername := jsOrStr contract.creatorUsername ""
      let url := if slug = "" then "" else
        "https://manifold.markets/" ++ creatorUsername ++ "/" ++ slug
      let p := jsOrNum contract.p 0.5
      let mechanism := jsOrStr contract.mechanism ""
      let rpp := resolveProbPool contract mechanism metrics.answerId
      let answerText := rpp.2.1
      let pool := rpp.2.2
      -- `if (probability === null)`: only the literal `null` triggers the
      -- pool-ratio fallback (or, failing that, the skip).  An `undefined`
      -- probability bypasses the test and the record is pushed; `ℝ` cannot
      -- represent the resulting `undefined`/`NaN` numbers, so that path
      -- carries the `undefinedProb` placeholder.
      let probability : Option ℝ :=
        match rpp.1 with
        | JSProb.num v => some v
        | JSProb.undef => some undefinedProb
        | JSProb.null =>
          if pool.YES > 0 ∧ pool.NO > 0 then some (pool.NO / (pool.YES + pool.NO))
          else none
      match probability with
      | none => none
      | some probVal =>
        let ammSaleValue :=
          if pool.YES > 0 ∧ pool.NO > 0 then
            calculateSaleValue shares outcome pool p mechanism
          else 0
        let fairValue := calculateSimpleSaleValue shares probVal outcome
        let saleValue := if ammSaleValue > 0 then ammSaleValue else fairValue
        let slippage :=
          if fairValue > 0 ∧ ammSaleValue > 0 then (fairValue - ammSaleValue) / fairValue
          else 0
        let returnIfCorrect := calculateReturnIfCorrect saleValue shares closeTime currentTime
        let daysUntilClose : Option ℝ :=
          match closeTime with
          | none => none
          | some ct => if ct = 0 then none else some ((ct - currentTime) / (1000 * 60 * 60 * 24))
        some ⟨contractId, question, answerText, url, outcome, shares, saleValue,
          fairValue, slippage, probVal, daysUntilClose, returnIfCorrect⟩

/-- One iteration of the outer
`for (const [contractId, metricsList] of Object.entries(metricsByContract))`
loop of `processPositions`: the records pushed for one contract id. -/
noncomputable def processEntry (contracts : List Contract) (currentTime : ℝ)
    (entry : String × List ContractMetric) : List PositionValuation :=
  match lookupContract contracts entry.1 with
  | none => []
  | some contract =>
    if contract.isResolved then []
    else if jsOrStr contract.mechanism "" ∉ supportedMechanisms then []
    else entry.2.filterMap (processMetric contract entry.1 currentTime)

/-- `processPositions(rawData)` of the source.  `currentTime` is the
`Date.now()` value sampled at entry. -/
noncomputable def processPositions (rawData : RawData) (currentTime : ℝ) :
    List PositionValuation :=
  ((rawData.metricsByContract).getD []).flatMap
    (processEntry ((rawData.contracts).getD []) currentTime)

/-- `MARGIN_RATE_DAILY` of the source. -/
noncomputable def MARGIN_RATE_DAILY : ℝ := 0.0003

/-- `MARGIN_RATE_ANNUAL = MARGIN_RATE_DAILY * 365` of the source. -/
noncomputable def MARGIN_RATE_ANNUAL : ℝ := MARGIN_RATE_DAILY * 365

/-- The `(a.returnIfCorrect || 0)` sort key of the source's comparators. -/
noncomputable def returnKey (v : PositionValuation) : ℝ :=
  jsOrNum v.returnIfCorrect 0

/-- The `p.returnIfCorrect !== null && p.returnIfCorrect < MARGIN_RATE_ANNUAL`
filter predicate of `getPositionsBelowMarginRate`. -/
def belowMarginPred (v : PositionValuation) : Prop :=
  match v.returnIfCorrect with
  | none => False
  | some r => r < MARGIN_RATE_ANNUAL

noncomputable instance : DecidablePred belowMarginPred := fun v => by
  unfold belowMarginPred; exact match v.returnIfCorrect with
  | none => inferInstanceAs (Decidable False)
  | some r => inferInstanceAs (Decidable (r < MARGIN_RATE_ANNUAL))

/-- `getPositionsBelowMarginRate(positions)` of the source: filter to the
below-margin records, then `Array.prototype.sort` (stable, modelled by
`List.mergeSort`) with the ascending comparator
`(a, b) => (a.returnIfCorrect || 0) - (b.returnIfCorrect || 0)`. -/
noncomputable def getPositionsBelowMarginRate (positions : List PositionValuation) :
    List PositionValuation :=
  (positions.filter (fun v => decide (belowMarginPred v))).mergeSort
    (fun a b => decide (returnKey a ≤ returnKey b))

/-- `getAllPositionsSorted(positions)` of the source: drop records with a
`null` return, split at the margin rate, sort the below group ascending
and the above group descending, and concatenate. -/
noncomputable def getAllPositionsSorted (positions : List PositionValuation) :
    List PositionValuation :=
  let withReturns := positions.filter (fun v => v.returnIfCorrect ≠ none)
  let belowMargin := withReturns.filter
    (fun v => decide ((v.returnIfCorrect).getD 0 < MARGIN_RATE_ANNUAL))
  let aboveMargin := withReturns.filter
    (fun v => decide (MARGIN_RATE_ANNUAL ≤ (v.returnIfCorrect).getD 0))
  belowMargin.mergeSort (fun a b => decide (returnKey a ≤ returnKey b)) ++
    aboveMargin.mergeSort (fun a b => decide (returnKey b ≤ returnKey a))

/-- The time-independent fields of a `PositionValuation`: everything except
`daysUntilClose` and `returnIfCorrect`, the two fields derived from the
`Date.now()` sample. -/
def stripTime (v : PositionValuation) :
    String × String × Option String × String × Outcome × ℝ × ℝ × ℝ × ℝ × ℝ :=
  (v.contractId, v.question, v.answer, v.url, v.outcome, v.shares, v.saleValue,
    v.fairValue, v.slippage, v.probability)

/-- A one-market, one-holding fetched input used to evaluate the pipeline on
concrete data: an unresolved `cpmm-1` market with probability `3/5`, no
usable pool, close time `2`, and a holding of one YES share. -/
noncomputable def demoContract : Contract :=
  ⟨"c1", false, some "cpmm-1", some 2, none, none, none, none, JSProb.num (3/5), none, none⟩

/-- The single holding of `demoRawData`: one YES share. -/
def demoMetric : ContractMetric :=
  ⟨some ⟨1, 0⟩, none⟩

/-- The raw fetched data holding `demoContract` and `demoMetric`. -/
noncomputable def demoRawData : RawData :=
  ⟨some [("c1", [demoMetric])], some [demoContract]⟩

/-- The valuation that `processPositions` derives from `demoRawData` when
the clock reads `t`. -/
noncomputable def demoValuation (t : ℝ) : PositionValuation :=
  ⟨"c1", "Unknown", none, "", Outcome.YES, 1, 3/5, 3/5, 0, 3/5,
    some ((2 - t) / (1000 * 60 * 60 * 24)),
    calculateReturnIfCorrect (3/5) 1 (some 2) t⟩

/-- An unresolved `cpmm-1` market whose `prob` field is absent
(JavaScript `undefined`) and whose pool is missing: no probability is
resolvable from its contract fields and the pool-ratio fallback has no
usable reserves, so the specification says a holding against it cannot
be priced and is dropped. -/
noncomputable def probLessContract : Contract :=
  ⟨"c2", false, some "cpmm-1", some 2, none, none, none, none, JSProb.undef, none, none⟩

/-! ## Helper lemmas about the bisection loop -/

theorem bisectGo_succ_accept (pool : Pool) (p shares : ℝ) (outcome : Outcome)
    (fuel : Nat) (lo hi m0 : ℝ)
    (h : |calculateCpmmShares pool p ((lo + hi) / 2) outcome - shares| < 0.0001) :
    bisectGo pool p shares outcome (fuel + 1) lo hi m0 = (lo + hi) / 2 := by
  rw [bisectGo]
  simp only [if_pos h]

theorem bisectGo_succ_low (pool : Pool) (p shares : ℝ) (outcome : Outcome)
    (fuel : Nat) (lo hi m0 : ℝ)
    (h1 : ¬ |calculateCpmmShares pool p ((lo + hi) / 2) outcome - shares| < 0.0001)
    (h2 : calculateCpmmShares pool p ((lo + hi) / 2) outcome < shares) :
    bisectGo pool p shares outcome (fuel + 1) lo hi m0 =
      bisectGo pool p shares outcome fuel ((lo + hi) / 2) hi ((lo + hi) / 2) := by
  rw [bisectGo]
  simp only [if_neg h1, if_pos h2]

theorem bisectGo_succ_high (pool : Pool) (p shares : ℝ) (outcome : Outcome)
    (fuel : Nat) (lo hi m0 : ℝ)
    (h1 : ¬ |calculateCpmmShares pool p ((lo + hi) / 2) outcome - shares| < 0.0001)
    (h2 : ¬ calculateCpmmShares pool p ((lo + hi) / 2) outcome < shares) :
    bisectGo pool p shares outcome (fuel + 1) lo hi m0 =
      bisectGo pool p shares outcome fuel lo ((lo + hi) / 2) ((lo + hi) / 2) := by
  rw [bisectGo]
  simp only [if_neg h1, if_neg h2]

/-- The bisection result never leaves the initial interval (whatever the
share function does). -/
theorem bisectGo_mem (pool : Pool) (p shares : ℝ) (outcome : Outcome) :
    ∀ (fuel : Nat) (lo hi m0 : ℝ), lo ≤ hi →
      lo ≤ bisectGo pool p shares outcome (fuel + 1) lo hi m0 ∧
      bisectGo pool p shares outcome (fuel + 1) lo hi m0 ≤ hi := by
  intro fuel
  induction fuel with
  | zero =>
    intro lo hi m0 hlh
    by_cases h1 : |calculateCpmmShares pool p ((lo + hi) / 2) outcome - shares| < 0.0001
    · rw [bisectGo_succ_accept _ _ _ _ _ _ _ _ h1]
      constructor <;> linarith
    · by_cases h2 : calculateCpmmShares pool p ((lo + hi) / 2) outcome < shares
      · rw [bisectGo_succ_low _ _ _ _ _ _ _ _ h1 h2, bisectGo]
        constructor <;> linarith
      · rw [bisectGo_succ_high _ _ _ _ _ _ _ _ h1 h2, bisectGo]
        constructor <;> linarith
  | succ k ih =>
    intro lo hi m0 hlh
    by_cases h1 : |calculateCpmmShares pool p ((lo + hi) / 2) outcome - shares| < 0.0001
    · rw [bisectGo_succ_accept _ _ _ _ _ _ _ _ h1]
      constructor <;> linarith
    · by_cases h2 : calculateCpmmShares pool p ((lo + hi) / 2) outcome < shares
      · rw [bisectGo_succ_low _ _ _ _ _ _ _ _ h1 h2]
        have h3 := ih ((lo + hi) / 2) hi ((lo + hi) / 2) (by linarith)
        constructor <;> linarith [h3.1, h3.2]
      · rw [bisectGo_succ_high _ _ _ _ _ _ _ _ h1 h2]
        have h3 := ih lo ((lo + hi) / 2) ((lo + hi) / 2) (by linarith)
        constructor <;> linarith [h3.1, h3.2]

/-- When the share function is at least `shares + 1e-4` on the whole
interval, every iteration takes the `maxAmount = mid` branch, so the loop
converges geometrically onto the lower endpoint. -/
theorem bisectGo_allHigh (pool : Pool) (p shares : ℝ) (outcome : Outcome) :
    ∀ (fuel : Nat) (lo hi m0 : ℝ), lo ≤ hi →
      (∀ b, lo ≤ b → b ≤ hi → shares + 0.0001 ≤ calculateCpmmShares pool p b outcome) →
      bisectGo pool p shares outcome (fuel + 1) lo hi m0 = lo + (hi - lo) / 2 ^ (fuel + 1) := by
  intro fuel
  induction fuel with
  | zero =>
    intro lo hi m0 hlh hhigh
    have hm : shares + 0.0001 ≤ calculateCpmmShares pool p ((lo + hi) / 2) outcome :=
      hhigh _ (by linarith) (by linarith)
    have h1 : ¬ |calculateCpmmShares pool p ((lo + hi) / 2) outcome - shares| < 0.0001 := by
      rw [abs_sub_lt_iff]; push_neg; intro h; linarith
    have h2 : ¬ calculateCpmmShares pool p ((lo + hi) / 2) outcome < shares := by linarith
    rw [bisectGo_succ_high _ _ _ _ _ _ _ _ h1 h2, bisectGo]
    ring
  | succ k ih =>
    intro lo hi m0 hlh hhigh
    have hm : shares + 0.0001 ≤ calculateCpmmShares pool p ((lo + hi) / 2) outcome :=
      hhigh _ (by linarith) (by linarith)
    have h1 : ¬ |calculateCpmmShares pool p ((lo + hi) / 2) outcome - shares| < 0.0001 := by
      rw [abs_sub_lt_iff]; push_neg; intro h; linarith
    have h2 : ¬ calculateCpmmShares pool p ((lo + hi) / 2) outcome < shares := by linarith
    rw [bisectGo_succ_high _ _ _ _ _ _ _ _ h1 h2]
    rw [ih lo ((lo + hi) / 2) ((lo + hi) / 2) (by linarith)
      (fun b hb1 hb2 => hhigh b hb1 (by linarith))]
    field_simp
    ring

/-- Bisection invariant: either the result was accepted early (its shares
are within `1e-4` of the target), or it is the midpoint of a nested
interval of width `(hi - lo) / 2 ^ fuel` whose endpoints still bracket the
target. -/
theorem bisectGo_invariant (pool : Pool) (p shares : ℝ) (outcome : Outcome) :
    ∀ (fuel : Nat) (lo hi m0 : ℝ), lo ≤ hi →
      calculateCpmmShares pool p lo outcome ≤ shares →
      shares ≤ calculateCpmmShares pool p hi outcome →
      |calculateCpmmShares pool p (bisectGo pool p shares outcome (fuel + 1) lo hi m0) outcome
          - shares| < 0.0001 ∨
      ∃ lo2 hi2, lo ≤ lo2 ∧ hi2 ≤ hi ∧ lo2 ≤ hi2 ∧
        hi2 - lo2 = (hi - lo) / 2 ^ fuel ∧
        bisectGo pool p shares outcome (fuel + 1) lo hi m0 = (lo2 + hi2) / 2 ∧
        calculateCpmmShares pool p lo2 outcome ≤ shares ∧
        shares ≤ calculateCpmmShares pool p hi2 outcome := by
  intro fuel
  induction fuel with
  | zero =>
    intro lo hi m0 hlh hflo hfhi
    by_cases h1 : |calculateCpmmShares pool p ((lo + hi) / 2) outcome - shares| < 0.0001
    · left
      rw [bisectGo_succ_accept _ _ _ _ _ _ _ _ h1]
      exact h1
    · right
      refine ⟨lo, hi, le_refl _, le_refl _, hlh, by ring, ?_, hflo, hfhi⟩
      by_cases h2 : calculateCpmmShares pool p ((lo + hi) / 2) outcome < shares
      · rw [bisectGo_succ_low _ _ _ _ _ _ _ _ h1 h2, bisectGo]
      · rw [bisectGo_succ_high _ _ _ _ _ _ _ _ h1 h2, bisectGo]
  | succ k ih =>
    intro lo hi m0 hlh hflo hfhi
    by_cases h1 : |calculateCpmmShares pool p ((lo + hi) / 2) outcome - shares| < 0.0001
    · left
      rw [bisectGo_succ_accept _ _ _ _ _ _ _ _ h1]
      exact h1
    · by_cases h2 : calculateCpmmShares pool p ((lo + hi) / 2) outcome < shares
      · rw [bisectGo_succ_low _ _ _ _ _ _ _ _ h1 h2]
        rcases ih ((lo + hi) / 2) hi ((lo + hi) / 2) (by linarith) (le_of_lt h2) hfhi with h | h
        · left; exact h
        · right
          obtain ⟨lo2, hi2, ha, hb, hc, hd, he, hf2, hg⟩ := h
          refine ⟨lo2, hi2, by linarith, hb, hc, ?_, he, hf2, hg⟩
          rw [hd]; field_simp; ring
      · rw [bisectGo_succ_high _ _ _ _ _ _ _ _ h1 h2]
        push_neg at h2
        rcases ih lo ((lo + hi) / 2) ((lo + hi) / 2) (by linarith) hflo h2 with h | h
        · left; exact h
        · right
          obtain ⟨lo2, hi2, ha, hb, hc, hd, he, hf2, hg⟩ := h
          refine ⟨lo2, hi2, ha, by linarith, hc, ?_, he, hf2, hg⟩
          rw [hd]; field_simp; ring

/-! ## Closed forms of `calculateCpmmShares` for weights `1/m` -/

/-- For the weight `p = 1/m` (`m ≥ 1`), the YES-side share formula
collapses to a rational function: `y + b - y * n^(m-1) / (b+n)^(m-1)`. -/
theorem cpmm_oneDiv_yes (y n b : ℝ) (m : ℕ) (hm : 1 ≤ m) (hy : 0 < y)
    (hn : 0 < n) (hb : 0 ≤ b) :
    calculateCpmmShares ⟨y, n⟩ (1 / (m : ℝ)) b Outcome.YES
      = y + b - y * n ^ (m - 1) / (b + n) ^ (m - 1) := by
  have hmm : (0 : ℝ) < (m : ℝ) := by exact_mod_cast Nat.pos_of_ne_zero (by omega)
  rcases eq_or_lt_of_le hb with heq | hpos
  · rw [calculateCpmmShares, if_pos heq.symm, ← heq, zero_add]
    rw [mul_div_assoc, div_self (by positivity), mul_one]
    ring
  · rw [calculateCpmmShares, if_neg (ne_of_gt hpos)]
    simp only
    have hbn : (0 : ℝ) < b + n := by linarith
    have e1 : (1 : ℝ) / (1 / (m : ℝ)) = (m : ℝ) := one_div_one_div _
    have e2 : (1 : ℝ) / (m : ℝ) - 1 = -(((m : ℝ) - 1) / (m : ℝ)) := by
      field_simp
    have e3 : (1 : ℝ) - 1 / (m : ℝ) = ((m : ℝ) - 1) / (m : ℝ) := by
      field_simp
    rw [e1, e2, e3]
    have hk1 : (0 : ℝ) ≤ Real.rpow y (1 / (m : ℝ)) := Real.rpow_nonneg hy.le _
    have hk2 : (0 : ℝ) ≤ Real.rpow n (((m : ℝ) - 1) / (m : ℝ)) := Real.rpow_nonneg hn.le _
    have hk3 : (0 : ℝ) ≤ Real.rpow (b + n) (-(((m : ℝ) - 1) / (m : ℝ))) :=
      Real.rpow_nonneg hbn.le _
    have key : Real.rpow (Real.rpow y (1 / (m : ℝ)) * Real.rpow n (((m : ℝ) - 1) / (m : ℝ)) *
        Real.rpow (b + n) (-(((m : ℝ) - 1) / (m : ℝ)))) (m : ℝ)
        = y * n ^ (m - 1) / (b + n) ^ (m - 1) := by
      rw [show Real.rpow (Real.rpow y (1 / (m : ℝ)) * Real.rpow n (((m : ℝ) - 1) / (m : ℝ)) *
          Real.rpow (b + n) (-(((m : ℝ) - 1) / (m : ℝ)))) (m : ℝ)
          = (Real.rpow y (1 / (m : ℝ)) * Real.rpow n (((m : ℝ) - 1) / (m : ℝ)) *
            Real.rpow (b + n) (-(((m : ℝ) - 1) / (m : ℝ)))) ^ (m : ℝ) from rfl]
      rw [Real.mul_rpow (mul_nonneg hk1 hk2) hk3, Real.mul_rpow hk1 hk2]
      rw [show (Real.rpow y (1 / (m : ℝ))) ^ ((m : ℝ)) = y ^ ((1 / (m : ℝ)) * (m : ℝ)) from
        (Real.rpow_mul hy.le _ _).symm]
      rw [show (Real.rpow n (((m : ℝ) - 1) / (m : ℝ))) ^ ((m : ℝ))
          = n ^ ((((m : ℝ) - 1) / (m : ℝ)) * (m : ℝ)) from (Real.rpow_mul hn.le _ _).symm]
      rw [show (Real.rpow (b + n) (-(((m : ℝ) - 1) / (m : ℝ)))) ^ ((m : ℝ))
          = (b + n) ^ ((-(((m : ℝ) - 1) / (m : ℝ))) * (m : ℝ)) from
        (Real.rpow_mul hbn.le _ _).symm]
      rw [one_div_mul_cancel (ne_of_gt hmm), div_mul_cancel₀ _ (ne_of_gt hmm)]
      rw [show (-(((m : ℝ) - 1) / (m : ℝ))) * (m : ℝ) = -((m : ℝ) - 1) by
        field_simp]
      rw [Real.rpow_one]
      have hcast : ((m : ℝ) - 1) = ((m - 1 : ℕ) : ℝ) := by
        push_cast [Nat.cast_sub hm]
        ring
      rw [hcast, Real.rpow_neg hbn.le, Real.rpow_natCast, Real.rpow_natCast]
      rw [div_eq_mul_inv]
    rw [key]

/-- For the weight `p = 1/2`, the NO-side share formula collapses to
`n + b - y * n / (b + y)`. -/
theorem cpmm_half_no (y n b : ℝ) (hy : 0 < y) (hn : 0 < n) (hb : 0 ≤ b) :
    calculateCpmmShares ⟨y, n⟩ (1 / 2) b Outcome.NO
      = n + b - y * n / (b + y) := by
  rcases eq_or_lt_of_le hb with heq | hpos
  · rw [calculateCpmmShares, if_pos heq.symm, ← heq, zero_add]
    field_simp
  · rw [calculateCpmmShares, if_neg (ne_of_gt hpos)]
    simp only
    have hby : (0 : ℝ) < b + y := by linarith
    have e1 : (1 : ℝ) / (1 - 1 / 2) = 2 := by norm_num
    have e2 : (1 : ℝ) - 1 / 2 = 1 / 2 := by norm_num
    rw [e1, e2]
    have hk1 : (0 : ℝ) ≤ Real.rpow y (1 / 2) := Real.rpow_nonneg hy.le _
    have hk2 : (0 : ℝ) ≤ Real.rpow n (1 / 2) := Real.rpow_nonneg hn.le _
    have hk3 : (0 : ℝ) ≤ Real.rpow (b + y) (-(1 / 2)) := Real.rpow_nonneg hby.le _
    have key : Real.rpow (Real.rpow y (1 / 2) * Real.rpow n (1 / 2) *
        Real.rpow (b + y) (-(1 / 2))) 2 = y * n / (b + y) := by
      rw [show Real.rpow (Real.rpow y (1 / 2) * Real.rpow n (1 / 2) *
          Real.rpow (b + y) (-(1 / 2))) 2
          = (Real.rpow y (1 / 2) * Real.rpow n (1 / 2) *
            Real.rpow (b + y) (-(1 / 2))) ^ (2 : ℝ) from rfl]
      rw [Real.mul_rpow (mul_nonneg hk1 hk2) hk3, Real.mul_rpow hk1 hk2]
      rw [show (Real.rpow y (1 / 2)) ^ ((2 : ℝ)) = y ^ ((1 / 2 : ℝ) * 2) from
        (Real.rpow_mul hy.le _ _).symm]
      rw [show (Real.rpow n (1 / 2)) ^ ((2 : ℝ)) = n ^ ((1 / 2 : ℝ) * 2) from
        (Real.rpow_mul hn.le _ _).symm]
      rw [show (Real.rpow (b + y) (-(1 / 2))) ^ ((2 : ℝ))
          = (b + y) ^ ((-(1 / 2) : ℝ) * 2) from (Real.rpow_mul hby.le _ _).symm]
      norm_num
      rw [Real.rpow_neg_one]
      rw [div_eq_mul_inv]
    rw [key]

/-! ## Algebraic facts about the weight-`1/2` share curve
`g b = u + b - u * v / (b + v)` -/

/-- The weight-`1/2` share curve dominates the identity: buying for `b`
yields at least `b` shares. -/
theorem halfForm_ge_id (u v b : ℝ) (hu : 0 < u) (hv : 0 < v) (hb : 0 ≤ b) :
    b ≤ u + b - u * v / (b + v) := by
  have hbv : (0 : ℝ) < b + v := by linarith
  have h1 : u * v / (b + v) ≤ u := by
    rw [div_le_iff hbv]
    nlinarith
  linarith

/-- The weight-`1/2` share curve is monotone on `[0, ∞)`. -/
theorem halfForm_mono (u v a b : ℝ) (hu : 0 < u) (hv : 0 < v) (ha : 0 ≤ a)
    (hab : a ≤ b) :
    u + a - u * v / (a + v) ≤ u + b - u * v / (b + v) := by
  have hav : (0 : ℝ) < a + v := by linarith
  have hbv : (0 : ℝ) < b + v := by linarith
  have h1 : u * v / (b + v) ≤ u * v / (a + v) := by
    apply div_le_div_of_nonneg_left (by positivity) hav (by linarith)
  linarith

/-- The weight-`1/2` share curve is strictly monotone on `[0, ∞)`. -/
theorem halfForm_strictMono (u v a b : ℝ) (hu : 0 < u) (hv : 0 < v) (ha : 0 ≤ a)
    (hab : a < b) :
    u + a - u * v / (a + v) < u + b - u * v / (b + v) := by
  have hav : (0 : ℝ) < a + v := by linarith
  have hbv : (0 : ℝ) < b + v := by linarith
  have h1 : u * v / (b + v) < u * v / (a + v) := by
    apply div_lt_div_of_pos_left (by positivity) hav (by linarith)
  linarith

/-- A Lipschitz-type bound for the weight-`1/2` share curve on `[0, ∞)`:
the slope never exceeds `1 + u / v`. -/
theorem halfForm_lipschitz (u v a b : ℝ) (hu : 0 < u) (hv : 0 < v) (ha : 0 ≤ a)
    (hab : a ≤ b) :
    (u + b - u * v / (b + v)) - (u + a - u * v / (a + v)) ≤ (1 + u / v) * (b - a) := by
  have hav : (0 : ℝ) < a + v := by linarith
  have hbv : (0 : ℝ) < b + v := by linarith
  have h1 : u * v / (a + v) - u * v / (b + v) = u * v * (b - a) / ((a + v) * (b + v)) := by
    field_simp
    ring
  have h2 : u * v * (b - a) / ((a + v) * (b + v)) ≤ u * v * (b - a) / (v * v) := by
    apply div_le_div_of_nonneg_left ?_ (by positivity) ?_
    · exact mul_nonneg (mul_nonneg hu.le hv.le) (sub_nonneg.2 hab)
    · nlinarith
  have h3 : u * v * (b - a) / (v * v) = (u / v) * (b - a) := by
    field_simp
    ring
  nlinarith

/-- The lower bisection bound `s * v / (u + v)` sits at or below the true
root: the curve value there does not exceed `s`. -/
theorem halfForm_at_lowerBound (u v s : ℝ) (hu : 0 < u) (hv : 0 < v) (hs : 0 < s) :
    u + (s * v / (u + v)) - u * v / ((s * v / (u + v)) + v) ≤ s := by
  have huv : (0 : ℝ) < u + v := by linarith
  set t := s * v / (u + v) with ht
  have ht0 : 0 ≤ t := by positivity
  have htv : (0 : ℝ) < t + v := by linarith
  have hteq : t * (u + v) = s * v := by
    rw [ht]
    field_simp
  have hts : t ≤ s := by
    rw [ht, div_le_iff huv]
    nlinarith
  rw [sub_le_iff_le_add, ← sub_le_iff_le_add']
  rw [le_div_iff htv]
  nlinarith

/-! ## Bounds on the solver output -/

/-- The pool probability used for the bisection lower bound lies in `[0, 1]`
whenever both reserves are nonnegative. -/
theorem currentProbability_mem (pool : Pool) (hy : 0 ≤ pool.YES) (hn : 0 ≤ pool.NO) :
    0 ≤ currentProbability pool ∧ currentProbability pool ≤ 1 := by
  rw [currentProbability]
  split
  · rename_i h
    constructor
    · exact div_nonneg hn h.le
    · rw [div_le_one h]
      linarith
  · norm_num

/-- For a pool with nonnegative reserves and a positive target, the binary
search of `calculateAmountToBuyShares` starts from bounds inside
`[0, shares]` and therefore returns an amount in `[0, shares]`. -/
theorem calculateAmountToBuyShares_bounds (pool : Pool) (p shares : ℝ)
    (outcome : Outcome) (hsh : 0 < shares) (hy : 0 ≤ pool.YES) (hn : 0 ≤ pool.NO) :
    0 ≤ calculateAmountToBuyShares pool p shares outcome ∧
    calculateAmountToBuyShares pool p shares outcome ≤ shares := by
  obtain ⟨hp0, hp1⟩ := currentProbability_mem pool hy hn
  rw [calculateAmountToBuyShares, if_neg (not_le.2 hsh)]
  cases outcome with
  | YES =>
    simp only
    have hlo0 : 0 ≤ shares * currentProbability pool := by positivity
    have hlos : shares * currentProbability pool ≤ shares := by nlinarith
    have h := bisectGo_mem pool p shares Outcome.YES 49
      (shares * currentProbability pool) shares 0 hlos
    rw [show (49 : ℕ) + 1 = 50 from rfl] at h
    exact ⟨le_trans hlo0 h.1, h.2⟩
  | NO =>
    simp only
    have hlo0 : 0 ≤ shares * (1 - currentProbability pool) := by nlinarith
    have hlos : shares * (1 - currentProbability pool) ≤ shares := by nlinarith
    have h := bisectGo_mem pool p shares Outcome.NO 49
      (shares * (1 - currentProbability pool)) shares 0 hlos
    rw [show (49 : ℕ) + 1 = 50 from rfl] at h
    exact ⟨le_trans hlo0 h.1, h.2⟩

/-- C1: for every pool, weight `p ∈ (0,1)`, outcome, and `shares ≥ 0`:
when the mechanism is one of the two supported AMM variants and both pool
reserves are strictly positive, `calculateSaleValue` returns
`max 0 (shares - calculateAmountToBuyShares pool p shares (opposite outcome))`;
if the mechanism is unsupported or either reserve is `≤ 0`, it returns `0`
exactly. -/
theorem C1_saleValue_formula (pool : Pool) (p : ℝ) (outcome : Outcome)
    (shares : ℝ) (mechanism : String) (hp0 : 0 < p) (hp1 : p < 1)
    (hsh : 0 ≤ shares) :
    (mechanism ∈ supportedMechanisms → 0 < pool.YES → 0 < pool.NO →
      calculateSaleValue shares outcome pool p mechanism =
        max 0 (shares - calculateAmountToBuyShares pool p shares (oppositeOutcome outcome))) ∧
    ((mechanism ∉ supportedMechanisms ∨ pool.YES ≤ 0 ∨ pool.NO ≤ 0) →
      calculateSaleValue shares outcome pool p mechanism = 0) := by
  constructor
  · intro hmech hy hn
    rw [calculateSaleValue, if_neg (not_not_intro hmech),
      if_neg (by push_neg; exact ⟨hy, hn⟩)]
  · intro h
    rcases h with h | h
    · rw [calculateSaleValue, if_pos h]
    · rw [calculateSaleValue]
      by_cases hm : mechanism ∉ supportedMechanisms
      · rw [if_pos hm]
      · rw [if_neg hm, if_pos h]

/-- Witness for C1 at a concrete input. -/
theorem C1_saleValue_formula_witness :
    calculateSaleValue 1 Outcome.YES ⟨50, 50⟩ (1 / 2) "cpmm-1" =
      max 0 (1 - calculateAmountToBuyShares ⟨50, 50⟩ (1 / 2) 1 (oppositeOutcome Outcome.YES)) ∧
    calculateSaleValue 1 Outcome.YES ⟨50, 50⟩ (1 / 2) "other" = 0 :=
  ⟨(C1_saleValue_formula ⟨50, 50⟩ (1 / 2) Outcome.YES 1 "cpmm-1"
      (by norm_num) (by norm_num) (by norm_num)).1
      (by simp [supportedMechanisms]) (by norm_num) (by norm_num),
   (C1_saleValue_formula ⟨50, 50⟩ (1 / 2) Outcome.YES 1 "other"
      (by norm_num) (by norm_num) (by norm_num)).2
      (Or.inl (by simp [supportedMechanisms]))⟩

/-- C3: the liquidation value is always in `[0, shares]` for `shares ≥ 0`
(whatever the pool, weight, mechanism and outcome), and for `shares > 0`
and a pool with nonnegative reserves the amount returned by
`calculateAmountToBuyShares` lies in `[0, shares]`. -/
theorem C3_saleValue_bounds (pool : Pool) (p : ℝ) (mechanism : String)
    (outcome : Outcome) (shares : ℝ) (hsh : 0 ≤ shares) :
    (0 ≤ calculateSaleValue shares outcome pool p mechanism ∧
     calculateSaleValue shares outcome pool p mechanism ≤ shares) ∧
    (0 < shares → 0 ≤ pool.YES → 0 ≤ pool.NO →
      0 ≤ calculateAmountToBuyShares pool p shares outcome ∧
      calculateAmountToBuyShares pool p shares outcome ≤ shares) := by
  constructor
  · rw [calculateSaleValue]
    split
    · exact ⟨le_refl _, hsh⟩
    · split
      · exact ⟨le_refl _, hsh⟩
      · rename_i hpool
        push_neg at hpool
        rcases eq_or_lt_of_le hsh with heq | hpos
        · rw [← heq, calculateAmountToBuyShares, if_pos (le_refl _)]
          norm_num
        · have hb := calculateAmountToBuyShares_bounds pool p shares
            (oppositeOutcome outcome) hpos hpool.1.le hpool.2.le
          constructor
          · exact le_max_left _ _
          · exact max_le hsh (by linarith [hb.1])
  · intro hpos hy hn
    exact calculateAmountToBuyShares_bounds pool p shares outcome hpos hy hn

/-- Witness for C3 at a concrete input. -/
theorem C3_saleValue_bounds_witness :
    (0 ≤ calculateSaleValue 2 Outcome.NO ⟨30, 70⟩ (1 / 2) "cpmm-1" ∧
     calculateSaleValue 2 Outcome.NO ⟨30, 70⟩ (1 / 2) "cpmm-1" ≤ 2) ∧
    (0 < (2 : ℝ) → 0 ≤ (⟨30, 70⟩ : Pool).YES → 0 ≤ (⟨30, 70⟩ : Pool).NO →
      0 ≤ calculateAmountToBuyShares ⟨30, 70⟩ (1 / 2) 2 Outcome.NO ∧
      calculateAmountToBuyShares ⟨30, 70⟩ (1 / 2) 2 Outcome.NO ≤ 2) :=
  C3_saleValue_bounds ⟨30, 70⟩ (1 / 2) "cpmm-1" Outcome.NO 2 (by norm_num)

/-- C6: for a positive clock value, `calculateReturnIfCorrect` yields
`none` exactly when `closeTime` is absent, or
`daysUntilClose = (closeTime - currentTime) / (1 day) ≤ 0`, or
`saleValue ≤ 0`; on every other input it returns
`(shares - saleValue) / saleValue * (365 / max daysUntilClose 1)`,
never signalling absence by `0`. -/
theorem C6_returnIfCorrect_spec (saleValue shares : ℝ) (closeTime : Option ℝ)
    (currentTime : ℝ) (hct : 0 < currentTime) :
    (calculateReturnIfCorrect saleValue shares closeTime currentTime = none ↔
      closeTime = none ∨
      (∃ c, closeTime = some c ∧ (c - currentTime) / (1000 * 60 * 60 * 24) ≤ 0) ∨
      saleValue ≤ 0) ∧
    (∀ c, closeTime = some c → 0 < (c - currentTime) / (1000 * 60 * 60 * 24) →
      0 < saleValue →
      calculateReturnIfCorrect saleValue shares closeTime currentTime =
        some ((shares - saleValue) / saleValue *
          (365 / max ((c - currentTime) / (1000 * 60 * 60 * 24)) 1))) := by
  cases closeTime with
  | none =>
    constructor
    · simp [calculateReturnIfCorrect]
    · intro c hc
      exact absurd hc (by simp)
  | some c =>
    constructor
    · constructor
      · intro h
        by_cases hc : c = 0
        · refine Or.inr (Or.inl ⟨c, rfl, ?_⟩)
          rw [hc]
          apply div_nonpos_of_nonpos_of_nonneg <;> linarith
        · simp only [calculateReturnIfCorrect, if_neg hc] at h
          split_ifs at h with hcond
          rcases hcond with hd | hs
          · exact Or.inr (Or.inl ⟨c, rfl, hd⟩)
          · exact Or.inr (Or.inr hs)
      · intro h
        rcases h with h | ⟨c', hc', hd⟩ | hs
        · exact absurd h (by simp)
        · have hcc : c = c' := by injection hc'
          subst hcc
          simp only [calculateReturnIfCorrect]
          by_cases hc : c = 0
          · rw [if_pos hc]
          · rw [if_neg hc, if_pos (Or.inl hd)]
        · simp only [calculateReturnIfCorrect]
          by_cases hc : c = 0
          · rw [if_pos hc]
          · rw [if_neg hc, if_pos (Or.inr hs)]
    · intro c' hc' hday hsv
      have hcc : c = c' := by injection hc'
      subst hcc
      have hc : c ≠ 0 := by
        intro h
        rw [h] at hday
        have : (0 - currentTime) / (1000 * 60 * 60 * 24) ≤ 0 := by
          apply div_nonpos_of_nonpos_of_nonneg <;> linarith
        linarith
      simp only [calculateReturnIfCorrect, if_neg hc]
      rw [if_neg (by push_neg; exact ⟨hday, hsv⟩)]

/-- Witness for C6 at a concrete input: a market closing one day ahead. -/
theorem C6_returnIfCorrect_spec_witness :
    (calculateReturnIfCorrect 1 2 (some 86400001) 1 = none ↔
      (some 86400001 : Option ℝ) = none ∨
      (∃ c, (some 86400001 : Option ℝ) = some c ∧
        (c - 1) / (1000 * 60 * 60 * 24) ≤ 0) ∨
      (1 : ℝ) ≤ 0) ∧
    (∀ c, (some 86400001 : Option ℝ) = some c →
      0 < (c - 1) / (1000 * 60 * 60 * 24) → (0 : ℝ) < 1 →
      calculateReturnIfCorrect 1 2 (some 86400001) 1 =
        some ((2 - 1) / 1 * (365 / max ((c - 1) / (1000 * 60 * 60 * 24)) 1))) :=
  C6_returnIfCorrect_spec 1 2 (some 86400001) 1 (by norm_num)

/-- With both reserves summing positive, the pool probability is
`NO / (YES + NO)`. -/
theorem currentProbability_pos (y n : ℝ) (h : 0 < y + n) :
    currentProbability ⟨y, n⟩ = n / (y + n) := by
  rw [currentProbability]
  exact if_pos h

/-- The weight-`1/3` YES-side closed form at the instance used by the
counterexamples below: `f b = 50 + b - 50 * 50 ^ 2 / (b + 50) ^ 2`. -/
theorem cpmm_third_yes_50 (b : ℝ) (hb : 0 ≤ b) :
    calculateCpmmShares ⟨50, 50⟩ (1 / 3) b Outcome.YES
      = 50 + b - 50 * 50 ^ 2 / (b + 50) ^ 2 := by
  have h := cpmm_oneDiv_yes 50 50 b 3 (by norm_num) (by norm_num) (by norm_num) hb
  rw [show ((3 : ℕ) : ℝ) = 3 by norm_num] at h
  rw [show (3 : ℕ) - 1 = 2 from rfl] at h
  exact h

/-- Counterexample to C2's soundness clause: for the pool `{50, 50}` and
weight `p = 1/3`, spending exactly `1/4` buys `120601/161604` YES shares,
yet the bisection lower bound
`shares * currentProbability = 120601/323208` exceeds `1/4` — the true
cost lies strictly below the initial search interval. -/
theorem C2_lowerBound_counterexample :
    calculateCpmmShares ⟨50, 50⟩ (1 / 3) (1 / 4) Outcome.YES = 120601 / 161604 ∧
    currentProbability ⟨50, 50⟩ = 1 / 2 ∧
    (1 / 4 : ℝ) < (120601 / 161604) * (1 / 2) := by
  refine ⟨?_, ?_, by norm_num⟩
  · rw [cpmm_third_yes_50 (1 / 4) (by norm_num)]
    norm_num
  · rw [currentProbability_pos 50 50 (by norm_num)]
    norm_num

/-- The weight-`1/2` YES-side closed form: `y + b - y * n / (b + n)`. -/
theorem cpmm_half_yes (y n b : ℝ) (hy : 0 < y) (hn : 0 < n) (hb : 0 ≤ b) :
    calculateCpmmShares ⟨y, n⟩ (1 / 2) b Outcome.YES
      = y + b - y * n / (b + n) := by
  have h := cpmm_oneDiv_yes y n b 2 (by norm_num) hy hn hb
  rw [show ((2 : ℕ) : ℝ) = 2 by norm_num] at h
  rw [show (2 : ℕ) - 1 = 1 from rfl] at h
  simpa using h

/-- C2 (amended): for every pool with positive reserves and `shares > 0`,
`calculateAmountToBuyShares` is the 50-step bisection on the amount over
`[shares * currentProbability(outcome), shares]` (where the code's
probability of YES is `n/(y+n)` and of NO is `y/(y+n)`), a midpoint is
accepted early when the shares it produces are within `1e-4` of the
target, and — for the weight `p = 1/2` — the lower bound never exceeds
the true cost: every nonnegative root of the share curve lies inside the
initial interval.  (For `p ≠ 1/2` the soundness clause fails, see the
counterexample.) -/
theorem C2_amended_bisection (y n s : ℝ) (outcome : Outcome)
    (hy : 0 < y) (hn : 0 < n) (hs : 0 < s) :
    calculateAmountToBuyShares ⟨y, n⟩ (1 / 2) s outcome =
      bisectGo ⟨y, n⟩ (1 / 2) s outcome 50
        (match outcome with
         | Outcome.YES => s * currentProbability ⟨y, n⟩
         | Outcome.NO => s * (1 - currentProbability ⟨y, n⟩)) s 0 ∧
    (∀ lo hi m0 : ℝ,
      |calculateCpmmShares ⟨y, n⟩ (1 / 2) ((lo + hi) / 2) outcome - s| < 0.0001 →
      bisectGo ⟨y, n⟩ (1 / 2) s outcome 50 lo hi m0 = (lo + hi) / 2) ∧
    (∀ b, 0 ≤ b → calculateCpmmShares ⟨y, n⟩ (1 / 2) b outcome = s →
      (match outcome with
       | Outcome.YES => s * currentProbability ⟨y, n⟩
       | Outcome.NO => s * (1 - currentProbability ⟨y, n⟩)) ≤ b ∧ b ≤ s) := by
  have hyn : (0 : ℝ) < y + n := by linarith
  have hprob := currentProbability_pos y n hyn
  refine ⟨?_, ?_, ?_⟩
  · rw [calculateAmountToBuyShares, if_neg (not_le.2 hs)]
  · intro lo hi m0 h
    exact bisectGo_succ_accept _ _ _ _ 49 _ _ _ h
  · intro b hb hroot
    cases outcome with
    | YES =>
      rw [cpmm_half_yes y n b hy hn hb] at hroot
      show s * currentProbability ⟨y, n⟩ ≤ b ∧ b ≤ s
      rw [hprob]
      constructor
      · by_contra hlt
        push_neg at hlt
        have ht : s * (n / (y + n)) = s * n / (y + n) := by ring
        rw [ht] at hlt
        have h1 := halfForm_strictMono y n b (s * n / (y + n)) hy hn hb hlt
        have h2 := halfForm_at_lowerBound y n s hy hn hs
        rw [hroot] at h1
        linarith
      · have h3 := halfForm_ge_id y n b hy hn hb
        rw [hroot] at h3
        exact h3
    | NO =>
      have hroot2 : n + b - n * y / (b + y) = s := by
        rw [← hroot, cpmm_half_no y n b hy hn hb]
        ring
      show s * (1 - currentProbability ⟨y, n⟩) ≤ b ∧ b ≤ s
      rw [hprob]
      have hone : 1 - n / (y + n) = y / (y + n) := by
        field_simp
      rw [hone]
      constructor
      · by_contra hlt
        push_neg at hlt
        have ht : s * (y / (y + n)) = s * y / (n + y) := by
          rw [add_comm n y]
          ring
        rw [ht] at hlt
        have h1 := halfForm_strictMono n y b (s * y / (n + y)) hn hy hb hlt
        have h2 := halfForm_at_lowerBound n y s hn hy hs
        rw [hroot2] at h1
        linarith
      · have h3 := halfForm_ge_id n y b hn hy hb
        rw [hroot2] at h3
        exact h3

/-- Witness for the amended C2 at a concrete input. -/
theorem C2_amended_bisection_witness :
    calculateAmountToBuyShares ⟨50, 50⟩ (1 / 2) 10 Outcome.YES =
      bisectGo ⟨50, 50⟩ (1 / 2) 10 Outcome.YES 50
        (10 * currentProbability ⟨50, 50⟩) 10 0 ∧
    (∀ lo hi m0 : ℝ,
      |calculateCpmmShares ⟨50, 50⟩ (1 / 2) ((lo + hi) / 2) Outcome.YES - 10| < 0.0001 →
      bisectGo ⟨50, 50⟩ (1 / 2) 10 Outcome.YES 50 lo hi m0 = (lo + hi) / 2) ∧
    (∀ b, 0 ≤ b → calculateCpmmShares ⟨50, 50⟩ (1 / 2) b Outcome.YES = 10 →
      10 * currentProbability ⟨50, 50⟩ ≤ b ∧ b ≤ 10) :=
  C2_amended_bisection 50 50 10 Outcome.YES (by norm_num) (by norm_num) (by norm_num)

/-- Counterexample to C5: for the pool `{50, 50}`, weight `p = 1/3` and
`shares = 3/4`, the share curve sits above the whole initial bisection
interval `[3/8, 3/4]`, so the search returns its lower endpoint (up to
`2^-50`) and the round trip misses the target by about `0.366`, far more
than the claimed `1e-3`. -/
theorem C5_roundtrip_counterexample :
    0.001 < |calculateCpmmShares ⟨50, 50⟩ (1 / 3)
      (calculateAmountToBuyShares ⟨50, 50⟩ (1 / 3) (3 / 4) Outcome.YES)
      Outcome.YES - 3 / 4| := by
  have hprob := currentProbability_pos 50 50 (by norm_num)
  have hcall : calculateAmountToBuyShares ⟨50, 50⟩ (1 / 3) (3 / 4) Outcome.YES =
      bisectGo ⟨50, 50⟩ (1 / 3) (3 / 4) Outcome.YES 50 (3 / 8) (3 / 4) 0 := by
    rw [calculateAmountToBuyShares, if_neg (by norm_num), hprob]
    norm_num
  have hhigh : ∀ b : ℝ, 3 / 8 ≤ b → b ≤ 3 / 4 →
      (3 / 4 : ℝ) + 0.0001 ≤ calculateCpmmShares ⟨50, 50⟩ (1 / 3) b Outcome.YES := by
    intro b h1 h2
    rw [cpmm_third_yes_50 b (by linarith)]
    have key : 50 * 50 ^ 2 / (b + 50) ^ 2 ≤ 50 * 50 ^ 2 / ((3 / 8 + 50 : ℝ)) ^ 2 := by
      apply div_le_div_of_nonneg_left (by norm_num) (by norm_num)
      nlinarith
    have hval : (50 * 50 ^ 2 / ((3 / 8 + 50 : ℝ)) ^ 2) = 8000000 / 162409 := by
      norm_num
    rw [hval] at key
    linarith
  have hres : bisectGo ⟨50, 50⟩ (1 / 3) (3 / 4) Outcome.YES 50 (3 / 8) (3 / 4) 0 =
      3 / 8 + (3 / 4 - 3 / 8) / 2 ^ 50 :=
    bisectGo_allHigh ⟨50, 50⟩ (1 / 3) (3 / 4) Outcome.YES 49 (3 / 8) (3 / 4) 0
      (by norm_num) hhigh
  rw [hcall, hres]
  have hr1 : (3 / 8 : ℝ) ≤ 3 / 8 + (3 / 4 - 3 / 8) / 2 ^ 50 := by norm_num
  have hr0 : (0 : ℝ) ≤ 3 / 8 + (3 / 4 - 3 / 8) / 2 ^ 50 := by linarith
  rw [cpmm_third_yes_50 _ hr0]
  have key : 50 * 50 ^ 2 / ((3 / 8 + (3 / 4 - 3 / 8) / 2 ^ 50 : ℝ) + 50) ^ 2 ≤
      50 * 50 ^ 2 / ((3 / 8 + 50 : ℝ)) ^ 2 := by
    apply div_le_div_of_nonneg_left (by norm_num) (by norm_num)
    nlinarith
  have hval : (50 * 50 ^ 2 / ((3 / 8 + 50 : ℝ)) ^ 2) = 8000000 / 162409 := by
    norm_num
  rw [hval] at key
  have hpos : (0.001 : ℝ) <
      50 + (3 / 8 + (3 / 4 - 3 / 8) / 2 ^ 50) - 50 * 50 ^ 2 /
        ((3 / 8 + (3 / 4 - 3 / 8) / 2 ^ 50 : ℝ) + 50) ^ 2 - 3 / 4 := by
    nlinarith
  calc (0.001 : ℝ) < _ := hpos
  _ ≤ |50 + (3 / 8 + (3 / 4 - 3 / 8) / 2 ^ 50) - 50 * 50 ^ 2 /
        ((3 / 8 + (3 / 4 - 3 / 8) / 2 ^ 50 : ℝ) + 50) ^ 2 - 3 / 4| := le_abs_self _

/-- C5 (amended): for the weight `p = 1/2` the round trip
`sharesFromCost ∘ costFromShares` is within `1e-3` of `shares` whenever
the Lipschitz budget `(1 + u/v) * (interval width)` of the 49 remaining
halvings fits under `1e-3 * 2^49` (with `(u, v)` the reserves of the
bought and of the opposite side).  For general weights the `1e-3` bound
fails, see the counterexample. -/
theorem C5_amended_roundtrip (y n s : ℝ) (outcome : Outcome)
    (hy : 0 < y) (hn : 0 < n) (hs : 0 < s)
    (hbound : (match outcome with
       | Outcome.YES => (1 + y / n) * (s - s * (n / (y + n)))
       | Outcome.NO => (1 + n / y) * (s - s * (y / (y + n)))) ≤ 0.001 * 2 ^ 49) :
    |calculateCpmmShares ⟨y, n⟩ (1 / 2)
        (calculateAmountToBuyShares ⟨y, n⟩ (1 / 2) s outcome) outcome - s| ≤ 0.001 := by
  have hyn : (0 : ℝ) < y + n := by linarith
  have hprob := currentProbability_pos y n hyn
  have h2p : (0 : ℝ) < 2 ^ 49 := by positivity
  cases outcome with
  | YES =>
    simp only at hbound
    have hlo0 : (0 : ℝ) ≤ s * (n / (y + n)) := by positivity
    have hfrac : n / (y + n) ≤ 1 := by
      rw [div_le_one hyn]
      linarith
    have hlos : s * (n / (y + n)) ≤ s := by nlinarith
    have hcall : calculateAmountToBuyShares ⟨y, n⟩ (1 / 2) s Outcome.YES =
        bisectGo ⟨y, n⟩ (1 / 2) s Outcome.YES 50 (s * (n / (y + n))) s 0 := by
      rw [calculateAmountToBuyShares, if_neg (not_le.2 hs), hprob]
    have hflo : calculateCpmmShares ⟨y, n⟩ (1 / 2) (s * (n / (y + n))) Outcome.YES ≤ s := by
      rw [cpmm_half_yes y n _ hy hn hlo0]
      have h := halfForm_at_lowerBound y n s hy hn hs
      have heq : s * (n / (y + n)) = s * n / (y + n) := by ring
      rw [heq]
      exact h
    have hfhi : s ≤ calculateCpmmShares ⟨y, n⟩ (1 / 2) s Outcome.YES := by
      rw [cpmm_half_yes y n s hy hn hs.le]
      exact halfForm_ge_id y n s hy hn hs.le
    rcases bisectGo_invariant ⟨y, n⟩ (1 / 2) s Outcome.YES 49
        (s * (n / (y + n))) s 0 hlos hflo hfhi with h | h
    · have h50 : |calculateCpmmShares ⟨y, n⟩ (1 / 2)
          (bisectGo ⟨y, n⟩ (1 / 2) s Outcome.YES 50 (s * (n / (y + n))) s 0)
          Outcome.YES - s| < 0.0001 := h
      rw [hcall]
      linarith
    · obtain ⟨lo2, hi2, ha, hb2, hc, hd, he, hf2, hg⟩ := h
      have h50 : bisectGo ⟨y, n⟩ (1 / 2) s Outcome.YES 50 (s * (n / (y + n))) s 0 =
          (lo2 + hi2) / 2 := he
      rw [hcall, h50]
      have hlo2 : 0 ≤ lo2 := le_trans hlo0 ha
      have hhi2 : 0 ≤ hi2 := le_trans hlo2 hc
      have hr1 : lo2 ≤ (lo2 + hi2) / 2 := by linarith
      have hr2 : (lo2 + hi2) / 2 ≤ hi2 := by linarith
      have hr0 : 0 ≤ (lo2 + hi2) / 2 := by linarith
      rw [cpmm_half_yes y n _ hy hn hr0]
      rw [cpmm_half_yes y n lo2 hy hn hlo2] at hf2
      rw [cpmm_half_yes y n hi2 hy hn hhi2] at hg
      have hm1 := halfForm_mono y n lo2 ((lo2 + hi2) / 2) hy hn hlo2 hr1
      have hm2 := halfForm_mono y n ((lo2 + hi2) / 2) hi2 hy hn hr0 hr2
      have hlip := halfForm_lipschitz y n lo2 hi2 hy hn hlo2 hc
      have hb3 : (1 + y / n) * (hi2 - lo2) ≤ 0.001 := by
        rw [hd, mul_div_assoc', div_le_iff h2p]
        exact hbound
      rw [abs_le]
      constructor
      · linarith
      · linarith
  | NO =>
    simp only at hbound
    have hone : 1 - n / (y + n) = y / (y + n) := by field_simp
    have hlo0 : (0 : ℝ) ≤ s * (1 - n / (y + n)) := by
      rw [hone]; positivity
    have hfrac : y / (y + n) ≤ 1 := by
      rw [div_le_one hyn]
      linarith
    have hlos : s * (1 - n / (y + n)) ≤ s := by
      rw [hone]; nlinarith
    have hcall : calculateAmountToBuyShares ⟨y, n⟩ (1 / 2) s Outcome.NO =
        bisectGo ⟨y, n⟩ (1 / 2) s Outcome.NO 50 (s * (1 - n / (y + n))) s 0 := by
      rw [calculateAmountToBuyShares, if_neg (not_le.2 hs), hprob]
    have hclosedNO : ∀ c : ℝ, 0 ≤ c → calculateCpmmShares ⟨y, n⟩ (1 / 2) c Outcome.NO
        = n + c - n * y / (c + y) := by
      intro c hcge
      rw [cpmm_half_no y n c hy hn hcge]
      ring
    have hflo : calculateCpmmShares ⟨y, n⟩ (1 / 2) (s * (1 - n / (y + n))) Outcome.NO ≤ s := by
      rw [hclosedNO _ hlo0]
      have h := halfForm_at_lowerBound n y s hn hy hs
      have heq : s * (1 - n / (y + n)) = s * y / (n + y) := by
        rw [hone, add_comm n y]
        ring
      rw [heq]
      exact h
    have hfhi : s ≤ calculateCpmmShares ⟨y, n⟩ (1 / 2) s Outcome.NO := by
      rw [hclosedNO s hs.le]
      exact halfForm_ge_id n y s hn hy hs.le
    rcases bisectGo_invariant ⟨y, n⟩ (1 / 2) s Outcome.NO 49
        (s * (1 - n / (y + n))) s 0 hlos hflo hfhi with h | h
    · have h50 : |calculateCpmmShares ⟨y, n⟩ (1 / 2)
          (bisectGo ⟨y, n⟩ (1 / 2) s Outcome.NO 50 (s * (1 - n / (y + n))) s 0)
          Outcome.NO - s| < 0.0001 := h
      rw [hcall]
      linarith
    · obtain ⟨lo2, hi2, ha, hb2, hc, hd, he, hf2, hg⟩ := h
      have h50 : bisectGo ⟨y, n⟩ (1 / 2) s Outcome.NO 50 (s * (1 - n / (y + n))) s 0 =
          (lo2 + hi2) / 2 := he
      rw [hcall, h50]
      have hlo2 : 0 ≤ lo2 := le_trans hlo0 ha
      have hhi2 : 0 ≤ hi2 := le_trans hlo2 hc
      have hr1 : lo2 ≤ (lo2 + hi2) / 2 := by linarith
      have hr2 : (lo2 + hi2) / 2 ≤ hi2 := by linarith
      have hr0 : 0 ≤ (lo2 + hi2) / 2 := by linarith
      rw [hclosedNO _ hr0]
      rw [hclosedNO lo2 hlo2] at hf2
      rw [hclosedNO hi2 hhi2] at hg
      have hm1 := halfForm_mono n y lo2 ((lo2 + hi2) / 2) hn hy hlo2 hr1
      have hm2 := halfForm_mono n y ((lo2 + hi2) / 2) hi2 hn hy hr0 hr2
      have hlip := halfForm_lipschitz n y lo2 hi2 hn hy hlo2 hc
      have hb3 : (1 + n / y) * (hi2 - lo2) ≤ 0.001 := by
        rw [hd, mul_div_assoc', div_le_iff h2p]
        have hsub : s - s * (1 - n / (y + n)) = s - s * (y / (y + n)) := by
          rw [hone]
        rw [hsub]
        exact hbound
      rw [abs_le]
      constructor
      · linarith
      · linarith

/-- Witness for the amended C5 at a concrete input. -/
theorem C5_amended_roundtrip_witness :
    (1 + (50 : ℝ) / 50) * (10 - 10 * (50 / (50 + 50))) ≤ 0.001 * 2 ^ 49 ∧
    |calculateCpmmShares ⟨50, 50⟩ (1 / 2)
        (calculateAmountToBuyShares ⟨50, 50⟩ (1 / 2) 10 Outcome.YES)
        Outcome.YES - 10| ≤ 0.001 :=
  ⟨by norm_num,
   C5_amended_roundtrip 50 50 10 Outcome.YES (by norm_num) (by norm_num) (by norm_num)
     (by norm_num)⟩

/-- Counterexample to C4's monotonicity clause: for the pool `{50, 50}`
and weight `p = 1/3`, the target `79e-6` is accepted at the first midpoint
(`cost = 59.25e-6`) while the slightly larger target `82e-6` fails the
`1e-4` test there and is accepted one halving deeper at a smaller amount
(`cost = 51.25e-6`): the solver is not monotone in `shares`. -/
theorem C4_monotonicity_counterexample :
    (0 : ℝ) ≤ 79 / 1000000 ∧ (79 / 1000000 : ℝ) ≤ 82 / 1000000 ∧
    calculateAmountToBuyShares ⟨50, 50⟩ (1 / 3) (82 / 1000000) Outcome.YES <
      calculateAmountToBuyShares ⟨50, 50⟩ (1 / 3) (79 / 1000000) Outcome.YES := by
  have hprob := currentProbability_pos 50 50 (by norm_num)
  refine ⟨by norm_num, by norm_num, ?_⟩
  have hcall1 : calculateAmountToBuyShares ⟨50, 50⟩ (1 / 3) (79 / 1000000) Outcome.YES =
      bisectGo ⟨50, 50⟩ (1 / 3) (79 / 1000000) Outcome.YES 50
        (79 / 2000000) (79 / 1000000) 0 := by
    rw [calculateAmountToBuyShares, if_neg (by norm_num), hprob]
    norm_num
  have hcall2 : calculateAmountToBuyShares ⟨50, 50⟩ (1 / 3) (82 / 1000000) Outcome.YES =
      bisectGo ⟨50, 50⟩ (1 / 3) (82 / 1000000) Outcome.YES 50
        (41 / 1000000) (82 / 1000000) 0 := by
    rw [calculateAmountToBuyShares, if_neg (by norm_num), hprob]
    norm_num
  have hacc1 : |calculateCpmmShares ⟨50, 50⟩ (1 / 3)
      (((79 : ℝ) / 2000000 + 79 / 1000000) / 2) Outcome.YES - 79 / 1000000| < 0.0001 := by
    rw [cpmm_third_yes_50 _ (by norm_num), abs_lt]
    constructor <;> norm_num
  have hres1 : bisectGo ⟨50, 50⟩ (1 / 3) (79 / 1000000) Outcome.YES 50
      (79 / 2000000) (79 / 1000000) 0 = ((79 : ℝ) / 2000000 + 79 / 1000000) / 2 :=
    bisectGo_succ_accept _ _ _ _ 49 _ _ _ hacc1
  have hmid2val : calculateCpmmShares ⟨50, 50⟩ (1 / 3)
      (((41 : ℝ) / 1000000 + 82 / 1000000) / 2) Outcome.YES - 82 / 1000000 ≥ 0.0001 := by
    rw [cpmm_third_yes_50 _ (by norm_num)]
    norm_num
  have hrej2 : ¬ |calculateCpmmShares ⟨50, 50⟩ (1 / 3)
      (((41 : ℝ) / 1000000 + 82 / 1000000) / 2) Outcome.YES - 82 / 1000000| < 0.0001 := by
    intro habs
    rw [abs_lt] at habs
    linarith
  have hnotlt2 : ¬ calculateCpmmShares ⟨50, 50⟩ (1 / 3)
      (((41 : ℝ) / 1000000 + 82 / 1000000) / 2) Outcome.YES < 82 / 1000000 := by
    intro hlt
    linarith
  have hstep2 : bisectGo ⟨50, 50⟩ (1 / 3) (82 / 1000000) Outcome.YES 50
      (41 / 1000000) (82 / 1000000) 0 =
      bisectGo ⟨50, 50⟩ (1 / 3) (82 / 1000000) Outcome.YES 49
        (41 / 1000000) (((41 : ℝ) / 1000000 + 82 / 1000000) / 2)
        (((41 : ℝ) / 1000000 + 82 / 1000000) / 2) :=
    bisectGo_succ_high _ _ _ _ 49 _ _ _ hrej2 hnotlt2
  have hacc2 : |calculateCpmmShares ⟨50, 50⟩ (1 / 3)
      (((41 : ℝ) / 1000000 + ((41 : ℝ) / 1000000 + 82 / 1000000) / 2) / 2) Outcome.YES
      - 82 / 1000000| < 0.0001 := by
    rw [cpmm_third_yes_50 _ (by norm_num), abs_lt]
    constructor <;> norm_num
  have hres2 : bisectGo ⟨50, 50⟩ (1 / 3) (82 / 1000000) Outcome.YES 49
      (41 / 1000000) (((41 : ℝ) / 1000000 + 82 / 1000000) / 2)
      (((41 : ℝ) / 1000000 + 82 / 1000000) / 2) =
      (((41 : ℝ) / 1000000 + ((41 : ℝ) / 1000000 + 82 / 1000000) / 2) / 2) :=
    bisectGo_succ_accept _ _ _ _ 48 _ _ _ hacc2
  rw [hcall1, hres1, hcall2, hstep2, hres2]
  norm_num

/-- C4 (amended): `calculateAmountToBuyShares` returns `0` exactly for
`shares = 0` (and for every `shares ≤ 0`), and for `shares > 0` over a
pool with nonnegative reserves, its result lies between the lower
bisection bound `shares * currentProbability(outcome)` and `shares`;
monotonicity in `shares`, however, fails (see the counterexample): the
`1e-4` early-accept tolerance lets a larger target stop at a smaller
amount. -/
theorem C4_amended_cost (pool : Pool) (p s : ℝ) (outcome : Outcome)
    (hs : 0 < s) (hy : 0 ≤ pool.YES) (hn : 0 ≤ pool.NO) :
    calculateAmountToBuyShares pool p 0 outcome = 0 ∧
    (∀ t : ℝ, t ≤ 0 → calculateAmountToBuyShares pool p t outcome = 0) ∧
    ((match outcome with
      | Outcome.YES => s * currentProbability pool
      | Outcome.NO => s * (1 - currentProbability pool)) ≤
        calculateAmountToBuyShares pool p s outcome ∧
      calculateAmountToBuyShares pool p s outcome ≤ s) := by
  obtain ⟨hp0, hp1⟩ := currentProbability_mem pool hy hn
  refine ⟨by rw [calculateAmountToBuyShares, if_pos (le_refl 0)],
    fun t ht => by rw [calculateAmountToBuyShares, if_pos ht], ?_⟩
  rw [calculateAmountToBuyShares, if_neg (not_le.2 hs)]
  cases outcome with
  | YES =>
    show s * currentProbability pool ≤ _ ∧ _
    have hlos : s * currentProbability pool ≤ s := by nlinarith
    have h := bisectGo_mem pool p s Outcome.YES 49
      (s * currentProbability pool) s 0 hlos
    exact h
  | NO =>
    show s * (1 - currentProbability pool) ≤ _ ∧ _
    have hlos : s * (1 - currentProbability pool) ≤ s := by nlinarith
    have h := bisectGo_mem pool p s Outcome.NO 49
      (s * (1 - currentProbability pool)) s 0 hlos
    exact h

/-- Witness for the amended C4 at a concrete input. -/
theorem C4_amended_cost_witness :
    calculateAmountToBuyShares ⟨50, 50⟩ (1 / 3) 0 Outcome.YES = 0 ∧
    (∀ t : ℝ, t ≤ 0 → calculateAmountToBuyShares ⟨50, 50⟩ (1 / 3) t Outcome.YES = 0) ∧
    (1 * currentProbability ⟨50, 50⟩ ≤
        calculateAmountToBuyShares ⟨50, 50⟩ (1 / 3) 1 Outcome.YES ∧
      calculateAmountToBuyShares ⟨50, 50⟩ (1 / 3) 1 Outcome.YES ≤ 1) :=
  C4_amended_cost ⟨50, 50⟩ (1 / 3) 1 Outcome.YES (by norm_num) (by norm_num) (by norm_num)

/-- C9: `getPositionsBelowMarginRate` returns exactly the input records
whose `returnIfCorrect` is present and below the margin rate, sorted
ascending by it; `getAllPositionsSorted` drops records with an absent
return and concatenates the below-margin records sorted ascending with
the at/above-margin records sorted descending, every below-margin record
preceding every at/above-margin one. -/
theorem C9_ranking_spec (ps : List PositionValuation) :
    ((getPositionsBelowMarginRate ps).Perm
        (ps.filter (fun v => decide (belowMarginPred v))) ∧
      (getPositionsBelowMarginRate ps).Sorted (fun a b => returnKey a ≤ returnKey b) ∧
      (∀ v ∈ getPositionsBelowMarginRate ps, v.returnIfCorrect ≠ none ∧
        (v.returnIfCorrect).getD 0 < MARGIN_RATE_ANNUAL)) ∧
    (∃ B A, getAllPositionsSorted ps = B ++ A ∧
      B.Perm ((ps.filter (fun v => v.returnIfCorrect ≠ none)).filter
        (fun v => decide ((v.returnIfCorrect).getD 0 < MARGIN_RATE_ANNUAL))) ∧
      A.Perm ((ps.filter (fun v => v.returnIfCorrect ≠ none)).filter
        (fun v => decide (MARGIN_RATE_ANNUAL ≤ (v.returnIfCorrect).getD 0))) ∧
      B.Sorted (fun a b => returnKey a ≤ returnKey b) ∧
      A.Sorted (fun a b => returnKey b ≤ returnKey a) ∧
      (∀ v ∈ B, v.returnIfCorrect ≠ none ∧
        (v.returnIfCorrect).getD 0 < MARGIN_RATE_ANNUAL) ∧
      (∀ v ∈ A, v.returnIfCorrect ≠ none ∧
        MARGIN_RATE_ANNUAL ≤ (v.returnIfCorrect).getD 0)) := by
  constructor
  · refine ⟨List.mergeSort_perm _ _, ?_, ?_⟩
    · have h := @List.sorted_mergeSort PositionValuation
        (fun a b : PositionValuation => decide (returnKey a ≤ returnKey b))
        (fun a b c h1 h2 => by simp at *; linarith)
        (fun a b => by simpa using le_total (returnKey a) (returnKey b))
        (ps.filter (fun v => decide (belowMarginPred v)))
      refine h.imp ?_
      intro a b hab
      simpa using hab
    · intro v hv
      rw [getPositionsBelowMarginRate, List.mem_mergeSort, List.mem_filter] at hv
      have hp : belowMarginPred v := of_decide_eq_true hv.2
      rw [belowMarginPred] at hp
      cases hr : v.returnIfCorrect with
      | none => rw [hr] at hp; exact absurd hp not_false
      | some r =>
        rw [hr] at hp
        exact ⟨by simp [hr], by simpa [hr] using hp⟩
  · refine ⟨((ps.filter (fun v => v.returnIfCorrect ≠ none)).filter
        (fun v => decide ((v.returnIfCorrect).getD 0 < MARGIN_RATE_ANNUAL))).mergeSort
          (fun a b => decide (returnKey a ≤ returnKey b)),
      ((ps.filter (fun v => v.returnIfCorrect ≠ none)).filter
        (fun v => decide (MARGIN_RATE_ANNUAL ≤ (v.returnIfCorrect).getD 0))).mergeSort
          (fun a b => decide (returnKey b ≤ returnKey a)),
      ?_, List.mergeSort_perm _ _, List.mergeSort_perm _ _, ?_, ?_, ?_, ?_⟩
    · rfl
    · have h := @List.sorted_mergeSort PositionValuation
        (fun a b : PositionValuation => decide (returnKey a ≤ returnKey b))
        (fun a b c h1 h2 => by simp at *; linarith)
        (fun a b => by simpa using le_total (returnKey a) (returnKey b))
        ((ps.filter (fun v => v.returnIfCorrect ≠ none)).filter
          (fun v => decide ((v.returnIfCorrect).getD 0 < MARGIN_RATE_ANNUAL)))
      refine h.imp ?_
      intro a b hab
      simpa using hab
    · have h := @List.sorted_mergeSort PositionValuation
        (fun a b : PositionValuation => decide (returnKey b ≤ returnKey a))
        (fun a b c h1 h2 => by simp at *; linarith)
        (fun a b => by simpa using le_total (returnKey b) (returnKey a))
        ((ps.filter (fun v => v.returnIfCorrect ≠ none)).filter
          (fun v => decide (MARGIN_RATE_ANNUAL ≤ (v.returnIfCorrect).getD 0)))
      refine h.imp ?_
      intro a b hab
      simpa using hab
    · intro v hv
      rw [List.mem_mergeSort, List.mem_filter, List.mem_filter] at hv
      refine ⟨by simpa using hv.1.2, by simpa using hv.2⟩
    · intro v hv
      rw [List.mem_mergeSort, List.mem_filter, List.mem_filter] at hv
      refine ⟨by simpa using hv.1.2, by simpa using hv.2⟩

/-- Projections of a record emitted by `processMetric`: its id is the
contract id, the fair value is the no-slippage formula on its own shares
and probability, and the sale value / slippage come from the guarded AMM
value exactly as in the source. -/
theorem processMetric_some_proj (contract : Contract) (cid : String) (t : ℝ)
    (m : ContractMetric) (v : PositionValuation)
    (h : processMetric contract cid t m = some v) :
    v.contractId = cid ∧
    v.fairValue = calculateSimpleSaleValue v.shares v.probability v.outcome ∧
    (let pool := (resolveProbPool contract (jsOrStr contract.mechanism "") m.answerId).2.2
     let amm := if pool.YES > 0 ∧ pool.NO > 0 then
        calculateSaleValue v.shares v.outcome pool (jsOrNum contract.p 0.5)
          (jsOrStr contract.mechanism "") else 0
     v.saleValue = (if amm > 0 then amm else v.fairValue) ∧
     v.slippage = (if v.fairValue > 0 ∧ amm > 0 then (v.fairValue - amm) / v.fairValue
        else 0)) := by
  simp only [processMetric] at h
  split at h
  · exact Option.noConfusion h
  split at h
  all_goals
    split at h
    · exact Option.noConfusion h
    split at h
    · exact Option.noConfusion h
    rename_i probVal heq
    rw [Option.some_inj] at h
    subst h
    exact ⟨rfl, rfl, rfl, rfl⟩

/-- C7: every `PositionValuation` emitted by `processPositions` comes from
a looked-up contract and a holding record, its fair value is
`shares * probability` for YES (`shares * (1 - probability)` for NO), its
sale value is the guarded AMM liquidation value when positive and the
fair value otherwise, and its slippage is `(fair - amm) / fair` when both
are positive and `0` otherwise. -/
theorem C7_valuation_fields (rawData : RawData) (t : ℝ) (v : PositionValuation)
    (hv : v ∈ processPositions rawData t) :
    ∃ (contract : Contract) (m : ContractMetric),
      lookupContract ((rawData.contracts).getD []) v.contractId = some contract ∧
      processMetric contract v.contractId t m = some v ∧
      v.fairValue = calculateSimpleSaleValue v.shares v.probability v.outcome ∧
      (let pool := (resolveProbPool contract (jsOrStr contract.mechanism "") m.answerId).2.2
       let amm := if pool.YES > 0 ∧ pool.NO > 0 then
          calculateSaleValue v.shares v.outcome pool (jsOrNum contract.p 0.5)
            (jsOrStr contract.mechanism "") else 0
       v.saleValue = (if amm > 0 then amm else v.fairValue) ∧
       v.slippage = (if v.fairValue > 0 ∧ amm > 0 then (v.fairValue - amm) / v.fairValue
          else 0)) := by
  rw [processPositions, List.mem_flatMap] at hv
  obtain ⟨entry, hentry, hv2⟩ := hv
  cases hlk : lookupContract ((rawData.contracts).getD []) entry.1 with
  | none =>
    rw [processEntry, hlk] at hv2
    exact absurd hv2 (List.not_mem_nil _)
  | some contract =>
    rw [processEntry, hlk] at hv2
    simp only at hv2
    split_ifs at hv2 with h1 h2
    all_goals try exact absurd hv2 (List.not_mem_nil _)
    rw [List.mem_filterMap] at hv2
    obtain ⟨m, hm, hsome⟩ := hv2
    have hproj := processMetric_some_proj contract entry.1 t m v hsome
    refine ⟨contract, m, ?_, ?_, hproj.2.1, hproj.2.2⟩
    · rw [hproj.1]
      exact hlk
    · rw [hproj.1]
      exact hsome

/-- Evaluation of the holding step on the demonstration data. -/
theorem processMetric_demo (t : ℝ) :
    processMetric demoContract "c1" t demoMetric = some (demoValuation t) := by
  have hm : jsOrStr demoContract.mechanism "" = "cpmm-1" := by
    simp [demoContract, jsOrStr]
  have hrpp : resolveProbPool demoContract (jsOrStr demoContract.mechanism "")
      demoMetric.answerId = (JSProb.num (3 / 5), none, ⟨0, 0⟩) := by
    rw [hm, resolveProbPool, if_pos rfl]
    simp [demoContract]
  simp only [processMetric]
  rw [hrpp]
  norm_num [demoMetric, demoContract, demoValuation, jsOrStr, jsOrNum,
    calculateSimpleSaleValue]

/-- Evaluation of the whole pipeline on the demonstration data: exactly
one valuation comes out, whatever the clock reads. -/
theorem processPositions_demo (t : ℝ) :
    processPositions demoRawData t = [demoValuation t] := by
  have hlk : lookupContract [demoContract] "c1" = some demoContract := by
    simp [lookupContract, demoContract]
  rw [processPositions]
  simp only [demoRawData, Option.getD, List.flatMap_cons, List.flatMap_nil,
    List.append_nil, processEntry]
  simp only [hlk]
  have h1 : demoContract.isResolved = false := rfl
  have h2 : jsOrStr demoContract.mechanism "" = "cpmm-1" := by
    simp [demoContract, jsOrStr]
  rw [h1, h2]
  simp [supportedMechanisms, List.filterMap_cons, List.filterMap_nil,
    processMetric_demo t]

/-- Witness for C7 at the demonstration data. -/
theorem C7_valuation_fields_witness :
    ∃ (contract : Contract) (m : ContractMetric),
      lookupContract ((demoRawData.contracts).getD [])
        (demoValuation 1).contractId = some contract ∧
      processMetric contract (demoValuation 1).contractId 1 m =
        some (demoValuation 1) ∧
      (demoValuation 1).fairValue = calculateSimpleSaleValue (demoValuation 1).shares
        (demoValuation 1).probability (demoValuation 1).outcome ∧
      (let pool := (resolveProbPool contract (jsOrStr contract.mechanism "")
          m.answerId).2.2
       let amm := if pool.YES > 0 ∧ pool.NO > 0 then
          calculateSaleValue (demoValuation 1).shares (demoValuation 1).outcome pool
            (jsOrNum contract.p 0.5) (jsOrStr contract.mechanism "") else 0
       (demoValuation 1).saleValue = (if amm > 0 then amm else (demoValuation 1).fairValue) ∧
       (demoValuation 1).slippage = (if (demoValuation 1).fairValue > 0 ∧ amm > 0 then
          ((demoValuation 1).fairValue - amm) / (demoValuation 1).fairValue else 0)) :=
  C7_valuation_fields demoRawData 1 (demoValuation 1)
    (by rw [processPositions_demo 1]; exact List.mem_cons_self _ _)

/-- C8 failing input: for `probLessContract` (absent `prob` field,
unusable pool) the mechanism dispatch leaves `probability` set to
JavaScript `undefined`, which the source's `probability === null` test
does not match, so the holding of one YES share is emitted rather than
silently dropped — although no probability is resolvable from contract
fields and both fallback pool reserves are `0`. -/
theorem C8_undefined_prob_emitted :
    (resolveProbPool probLessContract (jsOrStr probLessContract.mechanism "")
      demoMetric.answerId).1 = JSProb.undef ∧
    (resolveProbPool probLessContract (jsOrStr probLessContract.mechanism "")
      demoMetric.answerId).2.2 = ⟨0, 0⟩ ∧
    (processMetric probLessContract "c2" 1 demoMetric).isSome = true ∧
    processEntry [probLessContract] 1 ("c2", [demoMetric]) ≠ [] := by
  have hm : jsOrStr probLessContract.mechanism "" = "cpmm-1" := by
    simp [probLessContract, jsOrStr]
  have hrpp : resolveProbPool probLessContract (jsOrStr probLessContract.mechanism "")
      demoMetric.answerId = (JSProb.undef, none, ⟨0, 0⟩) := by
    rw [hm, resolveProbPool, if_pos rfl]
    simp [probLessContract]
  have hpm : (processMetric probLessContract "c2" 1 demoMetric).isSome = true := by
    simp only [processMetric]
    rw [hrpp]
    norm_num [demoMetric]
  refine ⟨by rw [hrpp], by rw [hrpp], hpm, ?_⟩
  have hlk : lookupContract [probLessContract] "c2" = some probLessContract := by
    simp [lookupContract, probLessContract]
  simp only [processEntry, hlk]
  have h1 : probLessContract.isResolved = false := rfl
  rw [h1, hm]
  simp only [Bool.false_eq_true, if_false, supportedMechanisms]
  rw [if_neg (by simp)]
  intro hcontra
  rw [List.filterMap_eq_nil_iff] at hcontra
  have := hcontra demoMetric (List.mem_cons_self _ _)
  rw [this] at hpm
  exact Bool.noConfusion hpm

/-- Counterexample to C10 as stated: `processPositions` reads the wall
clock (`Date.now()`), so two invocations on the same fetched data at
different clock readings produce different outputs — here the
`daysUntilClose` field differs. -/
theorem C10_clock_counterexample :
    processPositions demoRawData 0 ≠ processPositions demoRawData 1 := by
  rw [processPositions_demo 0, processPositions_demo 1]
  intro h
  have h1 : demoValuation 0 = demoValuation 1 := by
    injection h
  have h2 := congrArg PositionValuation.daysUntilClose h1
  simp only [demoValuation] at h2
  rw [Option.some_inj] at h2
  norm_num at h2

/-- C10 (amended): each analysis run is a pure function of its fetched
input and the clock value sampled at entry; on the same fetched data two
runs agree on every field except the two time-derived ones
(`daysUntilClose`, `returnIfCorrect`), whatever the two clock readings. -/
theorem C10_amended_determinism (rawData : RawData) (t1 t2 : ℝ) :
    (processPositions rawData t1).map stripTime =
      (processPositions rawData t2).map stripTime := by
  rw [processPositions, processPositions, List.map_flatMap, List.map_flatMap]
  congr 1
  funext entry
  rw [processEntry, processEntry]
  cases lookupContract ((rawData.contracts).getD []) entry.1 with
  | none => rfl
  | some contract =>
    simp only
    by_cases h1 : contract.isResolved = true
    · rw [h1]
      simp
    · simp only [Bool.not_eq_true] at h1
      rw [h1]
      simp only [Bool.false_eq_true, if_false]
      by_cases h2 : jsOrStr contract.mechanism "" ∉ supportedMechanisms
      · rw [if_pos h2, if_pos h2]
      · rw [if_neg h2, if_neg h2, List.map_filterMap, List.map_filterMap]
        congr 1
        funext m
        simp only [processMetric]
        by_cases hA : ((m.totalShares).getD ⟨0, 0⟩).YES ≤ 0 ∧
            ((m.totalShares).getD ⟨0, 0⟩).NO ≤ 0
        · rw [if_pos hA, if_pos hA]
        · rw [if_neg hA, if_neg hA]
          by_cases hB : (if ((m.totalShares).getD ⟨0, 0⟩).NO <
                ((m.totalShares).getD ⟨0, 0⟩).YES
              then ((m.totalShares).getD ⟨0, 0⟩).YES
              else ((m.totalShares).getD ⟨0, 0⟩).NO) < 0.01
          · rw [if_pos hB, if_pos hB]
          · rw [if_neg hB, if_neg hB]
            cases hP : (resolveProbPool contract (jsOrStr contract.mechanism "")
                m.answerId).1 with
            | num pv => rfl
            | undef => rfl
            | null =>
              by_cases h3 : (resolveProbPool contract (jsOrStr contract.mechanism "")
                  m.answerId).2.2.YES > 0 ∧
                  (resolveProbPool contract (jsOrStr contract.mechanism "")
                    m.answerId).2.2.NO > 0
              · rw [if_pos h3, if_pos h3]
                rfl
              · rw [if_neg h3, if_neg h3]
